import Mathlib

/-!
Section: Verification of the endpoint-log parser (`log_markdown_convertor.py`)

A shallow embedding of the parsing core of `EndpointLogParser` from
`src/log_markdown_convertor.py`, together with theorems settling the frozen
claims about it.

Strings are modelled as `List Char`.  Python-specific behaviour is embedded
faithfully:

* `str.strip()` removes leading/trailing whitespace (we model the ASCII
  whitespace characters, which cover every input the program produces);
* `str.split(sep)` splits on non-overlapping left-to-right occurrences;
* `str.replace(a, b)` replaces every occurrence;
* `re.split` with a capturing group interleaves captures with segments;
* `x in s` is the substring test;
* file reading is modelled by passing the file's content as the argument of
  `parseFile` (the Python code reads the file and parses the text; the
  parsing itself is pure).

Python's `\w`/`\d`/`str.upper`/`str.lower` are Unicode-aware; the embedding
uses the ASCII versions, which agree with Python on every character the
generator (`src/generator.py`) emits.
-/

namespace LogConv

abbrev Chars := List Char

/-- Python `str.isspace` characters (ASCII fragment, matching `\s`). -/
def pyIsSpace (c : Char) : Bool :=
  c = ' ' || c = '\t' || c = '\n' || c = '\r' || c = '\x0b' || c = '\x0c'

/-- Python `str.strip()`: drop leading and trailing whitespace. -/
def pyStrip (s : Chars) : Chars :=
  ((s.dropWhile pyIsSpace).reverse.dropWhile pyIsSpace).reverse

/-- Python `str.lower()` (ASCII). -/
def pyLower (s : Chars) : Chars := s.map Char.toLower

/-- Python `str.upper()` (ASCII). -/
def pyUpper (s : Chars) : Chars := s.map Char.toUpper

/-- The suffix of `s` starting at the first occurrence of `pat`
(`none` when `pat` does not occur).  `str.find` is expressed through this. -/
def suffixFrom (pat : Chars) : Chars → Option Chars
  | [] => if pat.isPrefixOf ([] : Chars) then some [] else none
  | c :: t => if pat.isPrefixOf (c :: t) then some (c :: t) else suffixFrom pat t

/-- Python `pat in s` (substring test). -/
def isSubstr (pat s : Chars) : Bool := (suffixFrom pat s).isSome

/-- Python `s.split(sep)`, written as repeated cutting at the first
occurrence of `sep`.  Fuel-based so that it reduces in the kernel; fuel
`s.length + 1` always suffices because each cut removes at least
`sep.length ≥ 1` characters (`sep` is never empty at the call sites —
Python raises on an empty separator). -/
def pySplitFuel (sep : Chars) : Nat → Chars → List Chars
  | 0, s => [s]
  | fuel + 1, s =>
    match suffixFrom sep s with
    | none => [s]
    | some suf =>
      if sep.isEmpty then [s]
      else s.take (s.length - suf.length) :: pySplitFuel sep fuel (suf.drop sep.length)

def pySplit (sep s : Chars) : List Chars := pySplitFuel sep (s.length + 1) s

/-- Python `s.split(sep)[1]` guarded by `sep in s`: the text between the first and
second occurrence of `sep` (to the end when `sep` occurs once). -/
def partAfterFirst (sep s : Chars) : Chars := (pySplit sep s).getD 1 []

/-- Python `s.split(sep)[0]`: the text before the first occurrence of `sep`. -/
def partBeforeFirst (sep s : Chars) : Chars := (pySplit sep s).getD 0 []

/-- Python `s.split(sep, 1)` as a pair: the text before the first
occurrence of `sep` and everything after it — later occurrences stay
intact (second component `[]` when `sep` is absent, matching the guarded
uses in the source). -/
def pySplit1 (sep s : Chars) : Chars × Chars :=
  match suffixFrom sep s with
  | some suf => (s.take (s.length - suf.length), suf.drop sep.length)
  | none => (s, [])

/-- Python `s.replace(pat, repl)`: replace every occurrence, left to
right, non-overlapping.  Fuel-based like `pySplitFuel` (and `pat` is never
empty at the call sites). -/
def replaceAllFuel (pat repl : Chars) : Nat → Chars → Chars
  | 0, s => s
  | fuel + 1, s =>
    match suffixFrom pat s with
    | none => s
    | some suf =>
      if pat.isEmpty then s
      else
        s.take (s.length - suf.length) ++ repl ++
          replaceAllFuel pat repl fuel (suf.drop pat.length)

def replaceAll (pat repl s : Chars) : Chars := replaceAllFuel pat repl (s.length + 1) s

/-- Python `'\n'.join` of pieces. -/
def joinLines : List Chars → Chars
  | [] => []
  | [l] => l
  | l :: ls => l ++ '\n' :: joinLines ls

/-!
Section: `EndpointLogParser._extract_complete_json` (lines 267–309)

`_extract_complete_json(text, start_marker)` finds the first occurrence of
`start_marker`, the first `'{'` from that position on, and scans forward
with a brace counter, an in-string flag and a one-shot escape flag; it
returns the slice through the brace that brings the counter back to zero,
and `""` on any failure.
-/

/-- The brace-counting scan of `_extract_complete_json`, started on the
suffix whose head is the opening `'{'`.  Returns the prefix through the
matching close brace, `none` when the depth never returns to zero.
The counter is an `Int`, exactly as Python's unbounded integer. -/
def scanToClose : Chars → Int → Bool → Bool → Option Chars
  | [], _, _, _ => none
  | c :: t, depth, inStr, esc =>
    if esc then (scanToClose t depth inStr false).map (c :: ·)
    else if c = '\\' then (scanToClose t depth inStr true).map (c :: ·)
    else if c = '"' then (scanToClose t depth (!inStr) esc).map (c :: ·)
    else if !inStr && c = '{' then (scanToClose t (depth + 1) inStr esc).map (c :: ·)
    else if !inStr && c = '}' then
      if depth - 1 = 0 then some [c]
      else (scanToClose t (depth - 1) inStr esc).map (c :: ·)
    else (scanToClose t depth inStr esc).map (c :: ·)

/-- Embedding of `EndpointLogParser._extract_complete_json`.  `text.find('{', start_index)`
searches from the start of the marker's occurrence, i.e. inside the suffix
returned by `suffixFrom`. -/
def extractCompleteJson (text marker : Chars) : Chars :=
  match suffixFrom marker text with
  | none => []
  | some suf =>
    match suffixFrom ['{'] suf with
    | none => []
    | some jsuf => (scanToClose jsuf 0 false false).getD []

/-!
Section: The extractor as the claim words it

The claim describes the extraction as: find the first `'{'` *after* the
first occurrence of the marker, then scan with an inside-string flag toggled
by unescaped `'"'` and a backslash that escapes exactly the next character,
counting braces only outside strings, through the matching `'}'`.  The
following definitions transcribe that sentence; the refinement theorem for
C1 relates them to `extractCompleteJson` above.
-/

/-- The scan state of the claim's description: the inside-string flag, the
one-shot escape flag and the running nesting depth. -/
structure JsonScanState where
  insideString : Bool
  escaped : Bool
  depth : Int
deriving Repr, DecidableEq

/-- One character step of the claim's scan.  The returned `Bool` is true
exactly when this character is the close brace returning the depth to
zero. -/
def jsonStep (st : JsonScanState) (c : Char) : JsonScanState × Bool :=
  if st.escaped then ({ st with escaped := false }, false)
  else if c = '\\' then ({ st with escaped := true }, false)
  else if c = '"' then ({ st with insideString := !st.insideString }, false)
  else if !st.insideString && c = '{' then ({ st with depth := st.depth + 1 }, false)
  else if !st.insideString && c = '}' then
    ({ st with depth := st.depth - 1 }, st.depth - 1 = 0)
  else (st, false)

/-- The claim's scan: the prefix of the input through the character whose
step reports the matching close brace. -/
def scanPrefixClaim : Chars → JsonScanState → Option Chars
  | [], _ => none
  | c :: t, st =>
    match jsonStep st c with
    | (st', closed) =>
      if closed then some [c] else (scanPrefixClaim t st').map (c :: ·)

/-- The JSON extraction exactly as the claim words it: the first `'{'` is
sought after the end of the marker's occurrence. -/
def extractJsonClaim (text marker : Chars) : Chars :=
  match suffixFrom marker text with
  | none => []
  | some suf =>
    match suffixFrom ['{'] (suf.drop marker.length) with
    | none => []
    | some jsuf => (scanPrefixClaim jsuf ⟨false, false, 0⟩).getD []

/-!
Section: Regex searches of `parse_file` (lines 36–89)

Each `re.search` call of the source is embedded as a function that scans
the text position by position (the engine's leftmost-match rule) and, at
the first position where the whole pattern matches, produces the capture.
Backtracking is resolved statically: in `(\w+) `, no shorter `\w+` run can
succeed because a word character can never match the literal space, and
likewise for the other greedy pieces, so every quantifier takes its
maximal (for lazy: minimal) extent.
-/

/-- Leftmost match of `re.search(r'ANCHOR(.+)', s)` (no DOTALL): the capture
is the maximal non-newline run after the anchor; a position where the run
is empty does not match and the search continues. -/
def searchLineCap (anchor : Chars) : Chars → Option Chars
  | [] => none
  | c :: t =>
    if anchor.isPrefixOf (c :: t) then
      match ((c :: t).drop anchor.length).takeWhile (· ≠ '\n') with
      | [] => searchLineCap anchor t
      | d :: u => some (d :: u)
    else searchLineCap anchor t

/-- Python's word characters (ASCII fragment of `\w`). -/
def isWordChar (c : Char) : Bool := c.isAlphanum || c = '_'

/-- Search `re.search(r'ENDPOINT: (\w+) (.+)', s)`: the two captured groups. -/
def searchEndpoint : Chars → Option (Chars × Chars)
  | [] => none
  | c :: t =>
    if "ENDPOINT: ".toList.isPrefixOf (c :: t) then
      let rest := (c :: t).drop 10
      let m := rest.takeWhile isWordChar
      if m.isEmpty then searchEndpoint t
      else if (rest.drop m.length).head? = some ' ' then
        match (rest.drop (m.length + 1)).takeWhile (· ≠ '\n') with
        | [] => searchEndpoint t
        | d :: u => some (m, d :: u)
      else searchEndpoint t
    else searchEndpoint t

/-- Does one of the lookahead alternatives (or `$`) hold at the head of the
remaining text `u`?  Python's `$` without `re.MULTILINE` matches at the end
of the string and also just before a single trailing newline. -/
def stopHere (stops : List Chars) (u : Chars) : Bool :=
  stops.any (·.isPrefixOf u) || u.isEmpty || u = ['\n']

/-- The lazy capture `(.*?)(?=STOP1|…|$)` (DOTALL): the minimal prefix of
`u` ending where a stop alternative holds.  `stopHere` holds at `[]`, so
the recursion always terminates with the whole remaining text. -/
def lazyCapture (stops : List Chars) : Chars → Chars
  | [] => []
  | c :: t => if stopHere stops (c :: t) then [] else c :: lazyCapture stops t

/-- Search `re.search(r'ANCHOR(.+?)(?=STOP1|…|$)', s, re.DOTALL)`: at the leftmost
occurrence of the anchor followed by at least one character, capture one
character and then lazily up to the first stop. -/
def searchDotallPlus (anchor : Chars) (stops : List Chars) : Chars → Option Chars
  | [] => none
  | c :: t =>
    if anchor.isPrefixOf (c :: t) then
      match (c :: t).drop anchor.length with
      | [] => searchDotallPlus anchor stops t
      | d :: u => some (d :: lazyCapture stops u)
    else searchDotallPlus anchor stops t

/-- The 40-dash underline of every section header. -/
def dashes40 : Chars := List.replicate 40 '-'

/-- Tries the section-header pattern `ANCHOR\s*-{40}\s*` at the head of
`s`; on success returns the remaining text where the capture begins.  The
whitespace runs are maximal: no shorter run can succeed because a
whitespace character can never match a dash (nor whatever follows the
second run, which matches anything). -/
def sectionHead (anchor : Chars) (s : Chars) : Option Chars :=
  if anchor.isPrefixOf s then
    let r1 := (s.drop anchor.length).dropWhile pyIsSpace
    if dashes40.isPrefixOf r1 then
      some ((r1.drop 40).dropWhile pyIsSpace)
    else none
  else none

/-- Leftmost position where the section-header pattern matches; returns the
text from the capture start on. -/
def searchSection (anchor : Chars) : Chars → Option Chars
  | [] => sectionHead anchor []
  | c :: t =>
    match sectionHead anchor (c :: t) with
    | some r => some r
    | none => searchSection anchor t

/-- Search `re.search(r'ANCHOR\s*-{40}\s*(.*?)(?=STOP1|…|$)', s, re.DOTALL)`:
the captured section span. -/
def sectionSpan (anchor : Chars) (stops : List Chars) (s : Chars) : Option Chars :=
  (searchSection anchor s).map (lazyCapture stops)

/-- Search `re.search(r'ANCHOR\s*-{40}\s*(.*)', s, re.DOTALL)`: greedy capture to
the very end of the text (used for `ADVANCED USAGE EXAMPLES:`). -/
def sectionSpanToEnd (anchor : Chars) (s : Chars) : Option Chars :=
  searchSection anchor s

/-!
Section: `re.split` with a capturing group

`re.split(pat, s)` with one capturing group returns
`[seg₀, cap₁, seg₁, cap₂, seg₂, …]`.  The source iterates
`for i in range(1, len(parts), 2)` pairing `parts[i]` with `parts[i+1]`
when the latter exists; `oddPairs` reproduces that iteration.
-/

/-- Generic `re.split` where `m` decides whether a match starts at the head
of the remaining text, returning the matched length (≥ 1) and the captured
group.  Fuel-based; fuel `s.length + 1` always suffices because every step
consumes at least one character. -/
def reSplitCapAux (m : Chars → Option (Nat × Chars)) : Nat → Chars → Chars → List Chars
  | 0, s, acc => [acc ++ s]
  | _ + 1, [], acc => [acc]
  | fuel + 1, c :: t, acc =>
    match m (c :: t) with
    | some (k, cap) =>
      if k = 0 then [acc ++ c :: t]
      else acc :: cap :: reSplitCapAux m fuel ((c :: t).drop k) []
    | none => reSplitCapAux m fuel t (acc ++ [c])

def reSplitCap (m : Chars → Option (Nat × Chars)) (s : Chars) : List Chars :=
  reSplitCapAux m (s.length + 1) s []

/-- Python loop `for i in range(1, len(parts), 2): if i + 1 < len(parts): use
(parts[i], parts[i+1])`. -/
def oddPairs (parts : List Chars) : List (Chars × Chars) :=
  match parts with
  | [] => []
  | _ :: rest => pairUp rest
where
  pairUp : List Chars → List (Chars × Chars)
    | b :: c :: rest => (b, c) :: pairUp rest
    | _ => []

/-- Match of `r'•\s+'` at the head: the bullet glyph followed by a maximal
nonempty whitespace run. -/
def matchBullet : Chars → Option (Nat × Chars)
  | [] => none
  | c :: t =>
    if c = '•' then
      match t.takeWhile pyIsSpace with
      | [] => none
      | w :: ws => some (1 + (w :: ws).length, [])
    else none

/-- Match of `r'Content-Type: (.+)'` at the head: the literal followed by a
maximal nonempty non-newline run, which is the capture. -/
def matchContentType (s : Chars) : Option (Nat × Chars) :=
  if "Content-Type: ".toList.isPrefixOf s then
    match (s.drop 14).takeWhile (· ≠ '\n') with
    | [] => none
    | d :: u => some (14 + (d :: u).length, d :: u)
  else none

/-- Match of `r'Status (\d+):'` at the head: the literal, a maximal
nonempty digit run (the capture) and a colon.  A shorter digit run can
never match because a digit cannot match the colon. -/
def matchStatus (s : Chars) : Option (Nat × Chars) :=
  if "Status ".toList.isPrefixOf s then
    let rest := s.drop 7
    match rest.takeWhile Char.isDigit with
    | [] => none
    | d :: u =>
      if (rest.drop (d :: u).length).head? = some ':' then
        some (7 + (d :: u).length + 1, d :: u)
      else none
  else none

/-- Match of `r'# (.+):'` at the head: `(.+)` is greedy and non-newline, so
with backtracking the capture runs to the *last* colon of the line that
leaves it nonempty; when the line's only colon sits directly after `# `,
no capture length works and the position does not match. -/
def matchHashTitle (s : Chars) : Option (Nat × Chars) :=
  if "# ".toList.isPrefixOf s then
    let line := (s.drop 2).takeWhile (· ≠ '\n')
    match (line.reverse.dropWhile (· ≠ ':')).tail.reverse with
    | [] => none
    | d :: u => some (2 + (d :: u).length + 1, d :: u)
  else none

/-!
Section: The data model

The Python parser builds dictionaries; they are embedded as structures.
In a parameter dictionary the `description`/`type`/`example` keys exist
only once the corresponding label was seen, hence `Option`.  In a response
dictionary Python initialises `schema` with `{}` and may overwrite it with
a string; the initial `{}` is represented by `[]` (both are falsy and the
renderer treats them alike).  `example` is a Lean keyword, so the field is
named `exampleText`.
-/

structure ParamData where
  name : Chars
  required : Bool
  description : Option Chars
  typ : Option Chars
  exampleText : Option Chars
deriving Repr, DecidableEq

structure FieldData where
  name : Chars
  typ : Chars
  format : Chars
  required : Bool
  description : Chars
deriving Repr, DecidableEq

structure RequestBodyData where
  description : Chars
  required : Bool
  content_type : Chars
  fields : List FieldData
  exampleText : Chars
deriving Repr, DecidableEq

structure ResponseData where
  status : Chars
  description : Chars
  content_type : Chars
  schema : Chars
  exampleText : Chars
deriving Repr, DecidableEq

structure CurlExample where
  title : Chars
  command : Chars
deriving Repr, DecidableEq

structure EndpointData where
  endpoint : Chars
  method : Chars
  path : Chars
  summary : Chars
  description : Chars
  tags : Chars
  path_parameters : List ParamData
  query_parameters : List ParamData
  request_body : List RequestBodyData
  responses : List ResponseData
  curl_examples : List CurlExample
deriving Repr, DecidableEq

/-!
Section: `EndpointLogParser._parse_parameters` (lines 93–148)
-/

/-- The three label states of the parameter-detail loop. -/
inductive PLabel | pdesc | ptyp | pex
deriving Repr, DecidableEq

/-- Python `param[current_field] = '\n'.join(current_content).strip()`. -/
def flushParam (p : ParamData) : Option (PLabel × List Chars) → ParamData
  | none => p
  | some (PLabel.pdesc, content) => { p with description := some (pyStrip (joinLines content)) }
  | some (PLabel.ptyp, content) => { p with typ := some (pyStrip (joinLines content)) }
  | some (PLabel.pex, content) => { p with exampleText := some (pyStrip (joinLines content)) }

/-- One line of the detail loop over `lines[1:]`. -/
def paramLineStep (st : ParamData × Option (PLabel × List Chars)) (line : Chars) :
    ParamData × Option (PLabel × List Chars) :=
  let ls := pyStrip line
  if "Description:".toList.isPrefixOf ls then
    (flushParam st.1 st.2, some (PLabel.pdesc, [pyStrip (replaceAll "Description:".toList [] ls)]))
  else if "Type:".toList.isPrefixOf ls then
    (flushParam st.1 st.2, some (PLabel.ptyp, [pyStrip (replaceAll "Type:".toList [] ls)]))
  else if "Example:".toList.isPrefixOf ls then
    (flushParam st.1 st.2, some (PLabel.pex, [pyStrip (replaceAll "Example:".toList [] ls)]))
  else if st.2.isSome && !ls.isEmpty then
    (st.1, st.2.map (fun (tag, content) => (tag, content ++ [ls])))
  else st

/-- Parsing of one bullet block. -/
def parseParamBlock (block : Chars) : ParamData :=
  let lines := pySplit ['\n'] (pyStrip block)
  let firstLine := pyStrip (lines.headD [])
  let base : ParamData :=
    if isSubstr ['('] firstLine then
      { name := pyStrip (partBeforeFirst ['('] firstLine)
        required :=
          pyUpper (pyStrip (partBeforeFirst [')'] (partAfterFirst ['('] firstLine)))
            = "REQUIRED".toList
        description := none, typ := none, exampleText := none }
    else
      { name := firstLine, required := false
        description := none, typ := none, exampleText := none }
  let st := lines.tail.foldl paramLineStep (base, none)
  flushParam st.1 st.2

/-- Embedding of `_parse_parameters`: split on bullets, skip blank blocks, parse each
block, preserving source order. -/
def parseParameters (text : Chars) : List ParamData :=
  (reSplitCap matchBullet text).foldl
    (fun acc block =>
      if (pyStrip block).isEmpty then acc else acc ++ [parseParamBlock block])
    []

/-!
Section: `EndpointLogParser._parse_field_structure` (lines 205–265)

Embedded exactly as written, including the fact that each line is
`strip`ped *before* the `line.startswith('  ')` tests, so the stripped
line can never start with two spaces; the branches are nevertheless kept
literally as in the source.
-/

/-- Parsing of the text after the colon of a field line:
type up to the first `(`, `(required)` flag, `(format: …)` parenthetical. -/
def parseFieldInfo (name info : Chars) : FieldData :=
  let typ :=
    match info.takeWhile (· ≠ '(') with
    | [] => []
    | d :: u => pyStrip (d :: u)
  { name := name
    typ := typ
    required := isSubstr "(required)".toList info
    format := (searchFormat info).getD []
    description := [] }
where
  /-- `re.search(r'\(format: ([^)]+)\)', info)`: leftmost occurrence of the
  literal `(format: ` followed by a maximal nonempty non-`)` run and a
  closing `)`; the capture is that run, stripped. -/
  searchFormat : Chars → Option Chars
    | [] => none
    | c :: t =>
      if "(format: ".toList.isPrefixOf (c :: t) then
        let rest := (c :: t).drop 9
        match rest.takeWhile (· ≠ ')') with
        | [] => searchFormat t
        | d :: u =>
          if (rest.drop (d :: u).length).head? = some ')' then some (pyStrip (d :: u))
          else searchFormat t
      else searchFormat t

/-- One line of the field-structure loop. -/
def fieldLineStep (st : List FieldData × Option FieldData) (line0 : Chars) :
    List FieldData × Option FieldData :=
  let line := pyStrip line0
  if line.isEmpty then st
  else if !("  ".toList.isPrefixOf line) && isSubstr [':'] line then
    let parts := pySplit1 [':'] line
    let newField := parseFieldInfo (pyStrip parts.1) (pyStrip parts.2)
    match st.2 with
    | some f => (st.1 ++ [f], some newField)
    | none => (st.1, some newField)
  else if "  ".toList.isPrefixOf line && st.2.isSome then
    (st.1, st.2.map (fun f =>
      if f.description.isEmpty then { f with description := line }
      else { f with description := f.description ++ ' ' :: line }))
  else st

/-- Embedding of `_parse_field_structure`. -/
def parseFieldStructure (fieldText : Chars) : List FieldData :=
  let lines := pySplit ['\n'] (pyStrip fieldText)
  let st := lines.foldl fieldLineStep ([], none)
  match st.2 with
  | some f => st.1 ++ [f]
  | none => st.1

/-!
Section: `EndpointLogParser._parse_request_body` (lines 150–203)
-/

/-- The example-extraction step for one content-type sub-span
(lines 186–199): brace-balanced extraction anchored at `Example JSON:`,
falling back to the post-marker slice truncated at the next
`\nContent-Type:`. -/
def requestBodyExample (sec : Chars) : Chars :=
  if isSubstr "Example JSON:".toList sec then
    match extractCompleteJson sec "Example JSON:".toList with
    | [] =>
      let exSec := pyStrip (partAfterFirst "Example JSON:".toList sec)
      match suffixFrom "\nContent-Type:".toList exSec with
      | some suf => pyStrip (exSec.take (exSec.length - suf.length))
      | none => pyStrip exSec
    | d :: u => d :: u
  else []

/-- The field-structure step for one content-type sub-span (lines 178–184). -/
def requestBodyFields (sec : Chars) : List FieldData :=
  if isSubstr "Field Structure:".toList sec then
    let fs0 := partAfterFirst "Field Structure:".toList sec
    let fs1 :=
      if isSubstr "Example JSON:".toList fs0 then
        partBeforeFirst "Example JSON:".toList fs0
      else fs0
    parseFieldStructure fs1
  else []

/-- Embedding of `_parse_request_body`. -/
def parseRequestBody (text : Chars) : List RequestBodyData :=
  let baseDescription := ((searchLineCap "Description: ".toList text).map pyStrip).getD []
  let isRequired :=
    match searchLineCap "Required: ".toList text with
    | some cap => pyLower (pyStrip cap) = "yes".toList
    | none => false
  (oddPairs (reSplitCap matchContentType text)).map fun (ct, sec) =>
    { description := baseDescription
      required := isRequired
      content_type := pyStrip ct
      fields := requestBodyFields sec
      exampleText := requestBodyExample sec }

/-!
Section: `EndpointLogParser._parse_responses` (lines 311–364)
-/

/-- Search `re.search(r'\n\n[A-Z]', s)`: the suffix at the leftmost occurrence of
two newlines followed by an ASCII capital. -/
def searchBlankLineCapital : Chars → Option Chars
  | '\n' :: '\n' :: c :: t =>
    if 'A' ≤ c && c ≤ 'Z' then some ('\n' :: '\n' :: c :: t)
    else searchBlankLineCapital ('\n' :: c :: t)
  | _ :: t => searchBlankLineCapital t
  | [] => none

/-- Parsing of one `Status <code>:` block (lines 318–362). -/
def parseResponseBlock (status content : Chars) : ResponseData :=
  if isSubstr "No response body".toList content then
    { status := status, description := "No response body".toList
      content_type := [], schema := [], exampleText := [] }
  else
    let ct := ((searchLineCap "Content-Type: ".toList content).map pyStrip).getD []
    let ex :=
      if isSubstr "Example Response:".toList content then
        match extractCompleteJson content "Example Response:".toList with
        | [] =>
          let exSec := pyStrip (partAfterFirst "Example Response:".toList content)
          match searchBlankLineCapital exSec with
          | some suf => pyStrip (exSec.take (exSec.length - suf.length))
          | none => pyStrip exSec
        | d :: u => d :: u
      else []
    let schema :=
      if isSubstr "Response Structure:".toList content then
        let s0 := partAfterFirst "Response Structure:".toList content
        let s1 :=
          if isSubstr "Example Response:".toList s0 then
            partBeforeFirst "Example Response:".toList s0
          else s0
        pyStrip s1
      else []
    { status := status, description := [], content_type := ct
      schema := schema, exampleText := ex }

/-- Embedding of `_parse_responses`. -/
def parseResponses (text : Chars) : List ResponseData :=
  (oddPairs (reSplitCap matchStatus text)).map fun (st, content) =>
    parseResponseBlock st content

/-- Embedding of `_parse_advanced_curl` (lines 366–383). -/
def parseAdvancedCurl (text : Chars) : List CurlExample :=
  (oddPairs (reSplitCap matchHashTitle text)).map fun (title, cmd) =>
    { title := pyStrip title, command := pyStrip cmd }

/-!
Section: `EndpointLogParser.parse_file` (lines 16–91)

The stop alternatives of each section regex are exactly those of the
source; in particular the `PATH PARAMETERS:` span does *not* stop at
`REQUEST BODY:`.
-/

def descStops : List Chars :=
  ["Tags:".toList, "PATH PARAMETERS:".toList, "QUERY PARAMETERS:".toList,
   "RESPONSES:".toList]

def pathParamStops : List Chars :=
  ["QUERY PARAMETERS:".toList, "RESPONSES:".toList, "BASIC CURL COMMAND:".toList]

def queryParamStops : List Chars :=
  ["REQUEST BODY:".toList, "RESPONSES:".toList, "BASIC CURL COMMAND:".toList]

def requestBodyStops : List Chars :=
  ["RESPONSES:".toList, "BASIC CURL COMMAND:".toList]

def responsesStops : List Chars := ["BASIC CURL COMMAND:".toList]

def curlStops : List Chars := ["ADVANCED USAGE EXAMPLES:".toList]

/-- Embedding of `parse_file`, with the file's content as argument.  Every field of the
record is initialised to its default and overwritten only when the
corresponding search succeeds, exactly as in the source. -/
def parseFile (content : Chars) : EndpointData :=
  let ep := searchEndpoint content
  { endpoint :=
      match ep with
      | some (m, p) => m ++ ' ' :: p
      | none => []
    method := (ep.map (·.1)).getD []
    path := (ep.map (·.2)).getD []
    summary := ((searchLineCap "Summary: ".toList content).map pyStrip).getD []
    description :=
      ((searchDotallPlus "Description: ".toList descStops content).map pyStrip).getD []
    tags := ((searchLineCap "Tags: ".toList content).map pyStrip).getD []
    path_parameters :=
      ((sectionSpan "PATH PARAMETERS:".toList pathParamStops content).map
        parseParameters).getD []
    query_parameters :=
      ((sectionSpan "QUERY PARAMETERS:".toList queryParamStops content).map
        parseParameters).getD []
    request_body :=
      ((sectionSpan "REQUEST BODY:".toList requestBodyStops content).map
        parseRequestBody).getD []
    responses :=
      ((sectionSpan "RESPONSES:".toList responsesStops content).map
        parseResponses).getD []
    curl_examples :=
      (match sectionSpan "BASIC CURL COMMAND:".toList curlStops content with
       | some g => [{ title := "Basic Command".toList, command := pyStrip g }]
       | none => []) ++
      (match sectionSpanToEnd "ADVANCED USAGE EXAMPLES:".toList content with
       | some g => parseAdvancedCurl g
       | none => []) }

end LogConv

namespace LogConv

/-!
Section: Basic lemmas about the text helpers
-/

theorem suffixFrom_isPrefix {pat : Chars} :
    ∀ {s suf : Chars}, suffixFrom pat s = some suf → pat.isPrefixOf suf = true := by
  intro s
  induction s with
  | nil =>
    intro suf h
    simp only [suffixFrom] at h
    split at h
    · next hp => cases h; exact hp
    · cases h
  | cons c t ih =>
    intro suf h
    simp only [suffixFrom] at h
    split at h
    · next hp => cases h; exact hp
    · exact ih h

theorem suffixFrom_isSuffix {pat : Chars} :
    ∀ {s suf : Chars}, suffixFrom pat s = some suf → suf.IsSuffix s := by
  intro s
  induction s with
  | nil =>
    intro suf h
    simp only [suffixFrom] at h
    split at h
    · cases h; exact List.nil_suffix
    · cases h
  | cons c t ih =>
    intro suf h
    simp only [suffixFrom] at h
    split at h
    · cases h; exact List.suffix_refl _
    · exact (ih h).trans (List.suffix_cons c t)

theorem suffixFrom_cons {pat : Chars} {c : Char} {t : Chars} :
    suffixFrom pat (c :: t) =
      if pat.isPrefixOf (c :: t) then some (c :: t) else suffixFrom pat t := rfl

/-!
Section: Claim C1 — brace-balanced JSON extraction
-/

theorem scanPrefixClaim_eq_scanToClose :
    ∀ (l : Chars) (inStr esc : Bool) (depth : Int),
      scanPrefixClaim l ⟨inStr, esc, depth⟩ = scanToClose l depth inStr esc := by
  intro l
  induction l with
  | nil => intro inStr esc depth; rfl
  | cons c t ih =>
    intro inStr esc depth
    simp only [scanPrefixClaim, scanToClose, jsonStep]
    split_ifs <;> first
      | rfl
      | exact congrArg (Option.map _) (ih _ _ _)
      | simp_all

theorem suffixFrom_brace_append {a : Chars} (rest : Chars) (h : '{' ∉ a) :
    suffixFrom ['{'] (a ++ rest) = suffixFrom ['{'] rest := by
  induction a with
  | nil => rfl
  | cons c t ih =>
    simp only [List.mem_cons, not_or] at h
    obtain ⟨hc, ht⟩ := h
    rw [List.cons_append, suffixFrom_cons, if_neg, ih ht]
    simp [List.isPrefixOf]
    exact hc

set_option maxRecDepth 40000 in
/-- C1: the extraction of `_extract_complete_json` agrees, for every text
and every marker not containing `'{'` (true of both call sites), with the
extraction exactly as the claim describes it (first `'{'` after the
marker's occurrence, string/escape-aware depth scan through the matching
`'}'`); and on the claim's concrete scenario it returns exactly the
embedded JSON object, the brace inside the string value notwithstanding. -/
theorem extractJson_matches_claim :
    (∀ text marker : Chars, '{' ∉ marker →
        extractCompleteJson text marker = extractJsonClaim text marker) ∧
      extractCompleteJson
          "Example JSON:\n\x7b\"a\": \x7b\"b\": 1\x7d, \"c\": \"x\x7by\x7dz\"\x7d\nContent-Type: ...".toList
          "Example JSON:".toList =
        "\x7b\"a\": \x7b\"b\": 1\x7d, \"c\": \"x\x7by\x7dz\"\x7d".toList := by
  refine ⟨?_, ?_⟩
  · intro text marker hm
    unfold extractCompleteJson extractJsonClaim
    cases hs : suffixFrom marker text with
    | none => rfl
    | some suf =>
      obtain ⟨rest, hrest⟩ := List.isPrefixOf_iff_prefix.mp (suffixFrom_isPrefix hs)
      subst hrest
      dsimp only
      rw [List.drop_left, suffixFrom_brace_append rest hm]
      cases suffixFrom ['{'] rest with
      | none => rfl
      | some jsuf =>
        dsimp only
        rw [scanPrefixClaim_eq_scanToClose]
  · decide

theorem extractJson_matches_claim_witness :
    extractCompleteJson "see \x7b\"k\": \"v\"\x7d end".toList "see".toList =
      extractJsonClaim "see \x7b\"k\": \"v\"\x7d end".toList "see".toList :=
  extractJson_matches_claim.1 _ _ (by decide)

/-!
Section: Claim C2 — section spans and the `REQUEST BODY:` anchor

The `PATH PARAMETERS:` regex of `parse_file` (line 59) stops only at
`QUERY PARAMETERS:`, `RESPONSES:`, `BASIC CURL COMMAND:` or the end of the
document — not at `REQUEST BODY:`, although the generator emits
`REQUEST BODY:` directly after `PATH PARAMETERS:` whenever an endpoint has
path parameters, a request body and no query parameters.  On such a
document the path-parameter span swallows the entire request-body block,
which then corrupts the parsed parameters.
-/

/-- A well-formed document with path parameters followed directly by a
request body (no query parameters), as the generator produces for a POST
endpoint with only path parameters. -/
def pathParamsBugInput : Chars :=
  "ENDPOINT: POST /items/\x7bid\x7d\nPATH PARAMETERS:\n----------------------------------------\n• id (REQUIRED)\n  Type: string\n\nREQUEST BODY:\n----------------------------------------\nDescription: payload\n\nRESPONSES:\n----------------------------------------\nStatus 200: OK\n".toList

set_option maxRecDepth 100000 in
/-- C2: the claim fails on the code — on `pathParamsBugInput` the
`PATH PARAMETERS:` span produced by `parse_file` contains the following
`REQUEST BODY:` anchor and block (the claim says a span never contains a
later recognized anchored section), and the parsed path parameter absorbs
the request-body text: its type becomes
`string\nREQUEST BODY:\n----…----` and its description the request
body's description. -/
theorem pathParams_span_swallows_request_body :
    isSubstr "REQUEST BODY:".toList
        ((sectionSpan "PATH PARAMETERS:".toList pathParamStops pathParamsBugInput).getD [])
      = true ∧
    (parseFile pathParamsBugInput).path_parameters =
      [{ name := "id".toList, required := true
         description := some "payload".toList
         typ := some ("string\nREQUEST BODY:\n----------------------------------------".toList)
         exampleText := none }] := by
  constructor
  · decide
  · decide

/-!
Section: Claim C4 — extraction failure and the request-body fallback
-/

theorem scanToClose_ne_nil :
    ∀ {l : Chars} {d : Int} {i e : Bool} {r : Chars},
      scanToClose l d i e = some r → r ≠ [] := by
  intro l
  induction l with
  | nil => intro d i e r h; cases h
  | cons c t ih =>
    intro d i e r h
    simp only [scanToClose] at h
    split_ifs at h <;>
      first
        | (obtain ⟨a, -, rfl⟩ := Option.map_eq_some'.mp h; simp)
        | (cases h; simp)

/-- The fallback slice exactly as the claim words it: the text after
`Example JSON:` (Python `split('Example JSON:')[1]`), stripped, truncated
just before the next `\nContent-Type:` when one occurs, to the end of the
sub-span otherwise. -/
def claimFallbackSlice (sec : Chars) : Chars :=
  let exSec := pyStrip (partAfterFirst "Example JSON:".toList sec)
  match suffixFrom "\nContent-Type:".toList exSec with
  | some suf => pyStrip (exSec.take (exSec.length - suf.length))
  | none => pyStrip exSec

/-- C4: `_extract_complete_json` returns the empty string exactly when the
marker does not occur, no `'{'` occurs from the marker's occurrence on, or
the depth scan never returns to zero; and when the marker `Example JSON:`
is present but extraction fails, the request-body example falls back to
the claimed slice (text after `Example JSON:`, up to the next
`Content-Type:` line or the end of the sub-span).  Failure never raises:
every function here is total by construction. -/
theorem extract_empty_characterisation :
    (∀ text marker : Chars,
        extractCompleteJson text marker = [] ↔
          (isSubstr marker text = false ∨
           (∃ suf, suffixFrom marker text = some suf ∧ isSubstr ['{'] suf = false) ∨
           (∃ suf jsuf, suffixFrom marker text = some suf ∧
              suffixFrom ['{'] suf = some jsuf ∧
              scanToClose jsuf 0 false false = none))) ∧
      (∀ sec : Chars, isSubstr "Example JSON:".toList sec = true →
        extractCompleteJson sec "Example JSON:".toList = [] →
        requestBodyExample sec = claimFallbackSlice sec) := by
  refine ⟨?_, ?_⟩
  · intro text marker
    unfold extractCompleteJson
    cases h1 : suffixFrom marker text with
    | none => simp [isSubstr, h1]
    | some suf =>
      cases h2 : suffixFrom ['{'] suf with
      | none => simp [isSubstr, h1, h2]
      | some jsuf =>
        cases h3 : scanToClose jsuf 0 false false with
        | none => simp [isSubstr, h1, h2, h3]
        | some r => simp [isSubstr, h1, h2, h3, scanToClose_ne_nil h3]
  · intro sec h1 h2
    unfold requestBodyExample claimFallbackSlice
    rw [if_pos h1, h2]

theorem extract_empty_characterisation_witness :
    requestBodyExample "Example JSON:\nNo example available\n\nContent-Type: next".toList =
      claimFallbackSlice "Example JSON:\nNo example available\n\nContent-Type: next".toList :=
  extract_empty_characterisation.2 _ (by decide) (by decide)

/-!
Section: Claim C3 — the field-structure indentation bug

`_parse_field_structure` strips every line before testing
`line.startswith('  ')`, so a stripped line never carries its leading
indentation: the "new field" branch fires for every nonempty line that
contains a colon, and the "continuation of the current field's
description" branch is unreachable.  An indented nested line such as
`  name: string (required)` is therefore promoted to a new top-level
field, contradicting both the claim and the source's own comments
("no leading spaces in original").
-/

/-- C3: on the field-structure text
`person: object (required)\n  name: string (required)` the code promotes
the indented nested line to a second top-level field instead of appending
it to the description of `person` — the claim fails on the code, and the
code contradicts its own comments. -/
theorem fieldStructure_promotes_indented_line :
    parseFieldStructure
        "person: object (required)\n  name: string (required)".toList =
      [{ name := "person".toList, typ := "object".toList, format := []
         required := true, description := [] },
       { name := "name".toList, typ := "string".toList, format := []
         required := true, description := [] }] := by decide

/-!
Section: Claim C9 — responses with no body
-/

/-- C9: a status block whose body contains the literal phrase
`No response body` yields a `ResponseData` with that phrase as
description, empty content-type, empty schema and empty example; no
content parsing is performed for the block. -/
theorem response_no_body_fields (status content : Chars)
    (h : isSubstr "No response body".toList content = true) :
    parseResponseBlock status content =
      { status := status, description := "No response body".toList
        content_type := [], schema := [], exampleText := [] } := by
  simp [parseResponseBlock]
  simpa using h

theorem response_no_body_fields_witness :
    parseResponseBlock "404".toList " Not found\n\nNo response body\n".toList =
      { status := "404".toList, description := "No response body".toList
        content_type := [], schema := [], exampleText := [] } :=
  response_no_body_fields "404".toList " Not found\n\nNo response body\n".toList
    (by decide)

end LogConv

namespace LogConv

/-!
Section: Claim C7 — parameter blocks, order and the concrete scenario
-/

theorem foldl_collectParams (p : Chars → Bool) (f : Chars → ParamData) :
    ∀ (l : List Chars) (acc : List ParamData),
      l.foldl (fun acc b => if p b then acc else acc ++ [f b]) acc
        = acc ++ (l.filter (fun b => !p b)).map f := by
  intro l
  induction l with
  | nil => intro acc; simp
  | cons b t ih =>
    intro acc
    simp only [List.foldl_cons, List.filter_cons]
    by_cases hb : p b
    · simp [hb, ih]
    · simp [hb, ih]

set_option maxRecDepth 100000 in
/-- C7: `_parse_parameters` parses exactly the nonblank bullet blocks, in
source order, each through `parseParamBlock` (whose first line yields the
name and the REQUIRED flag and whose labelled lines yield
description/type/example); and on the claim's concrete section the result
is the single path parameter `id`, required, with description
`Unique identifier`, type `string` and example `123`. -/
theorem parseParameters_characterisation :
    (∀ text : Chars,
        parseParameters text =
          ((reSplitCap matchBullet text).filter
              (fun b => !(pyStrip b).isEmpty)).map parseParamBlock) ∧
      (parseFile ("PATH PARAMETERS:\n----------------------------------------\n• id (REQUIRED)\n  Description: Unique identifier\n  Type: string\n  Example: 123\n".toList)).path_parameters =
        [{ name := "id".toList, required := true
           description := some "Unique identifier".toList
           typ := some "string".toList
           exampleText := some "123".toList }] := by
  refine ⟨?_, ?_⟩
  · intro text
    unfold parseParameters
    exact (foldl_collectParams _ _ _ _).trans (by simp)
  · decide

/-!
Section: Claims C8 and C10 — the endpoint header
-/

theorem head_dropWhile_false {p : Char → Bool} :
    ∀ {l : Chars} {x : Char} {xs : Chars}, l.dropWhile p = x :: xs → p x = false := by
  intro l
  induction l with
  | nil => intro x xs h; cases h
  | cons c t ih =>
    intro x xs h
    simp only [List.dropWhile] at h
    by_cases hc : p c
    · rw [hc] at h; exact ih h
    · rw [Bool.eq_false_iff.mpr hc] at h; cases h; exact Bool.eq_false_iff.mpr hc

theorem drop_length_takeWhile (p : Char → Bool) (l : Chars) :
    l.drop (l.takeWhile p).length = l.dropWhile p := by
  nth_rewrite 2 [← List.takeWhile_append_dropWhile p l]
  exact List.drop_left _ _

theorem searchEndpoint_sound :
    ∀ {s m p : Chars}, searchEndpoint s = some (m, p) →
      ∃ pre suf,
        s = pre ++ ("ENDPOINT: ".toList ++ m ++ ' ' :: p) ++ suf ∧
        m ≠ [] ∧ p ≠ [] ∧ '\n' ∉ p ∧ (suf = [] ∨ suf.head? = some '\n') := by
  intro s
  induction s with
  | nil => intro m p h; cases h
  | cons c t ih =>
    intro m p h
    simp only [searchEndpoint] at h
    by_cases hpre : "ENDPOINT: ".toList.isPrefixOf (c :: t) = true
    case neg =>
      rw [if_neg hpre] at h
      obtain ⟨pre, suf, heq, hrest⟩ := ih h
      exact ⟨c :: pre, suf, by simp [heq], hrest⟩
    case pos =>
      rw [if_pos hpre] at h
      obtain ⟨r, hr⟩ := List.isPrefixOf_iff_prefix.mp hpre
      have hdrop : (c :: t).drop 10 = r := by
        rw [← hr]
        exact List.drop_left "ENDPOINT: ".toList r
      rw [hdrop] at h
      by_cases hm0 : (r.takeWhile isWordChar).isEmpty = true
      case pos =>
        rw [if_pos hm0] at h
        obtain ⟨pre, suf, heq, hrest⟩ := ih h
        exact ⟨c :: pre, suf, by simp [heq], hrest⟩
      case neg =>
        rw [if_neg hm0] at h
        by_cases hsp : ((r.drop (r.takeWhile isWordChar).length).head? = some ' ')
        case neg =>
          rw [if_neg hsp] at h
          obtain ⟨pre, suf, heq, hrest⟩ := ih h
          exact ⟨c :: pre, suf, by simp [heq], hrest⟩
        case pos =>
          rw [if_pos hsp] at h
          have hsplit : r.takeWhile isWordChar ++ r.dropWhile isWordChar = r :=
            List.takeWhile_append_dropWhile isWordChar r
          rw [drop_length_takeWhile] at hsp
          obtain ⟨x, q', hq⟩ : ∃ x q', r.dropWhile isWordChar = x :: q' := by
            cases hd : r.dropWhile isWordChar with
            | nil => rw [hd] at hsp; cases hsp
            | cons x q' => exact ⟨x, q', rfl⟩
          have hx : x = ' ' := by rw [hq] at hsp; simpa using hsp
          subst hx
          rw [hq] at hsplit
          have hq' : r.drop ((r.takeWhile isWordChar).length + 1) = q' := by
            nth_rewrite 2 [← hsplit]
            rw [show r.takeWhile isWordChar ++ ' ' :: q'
                  = (r.takeWhile isWordChar ++ [' ']) ++ q' by simp,
              show (r.takeWhile isWordChar).length + 1
                  = (r.takeWhile isWordChar ++ [' ']).length by simp]
            exact List.drop_left _ _
          rw [hq'] at h
          cases hp0 : q'.takeWhile (· ≠ '\n') with
          | nil =>
            rw [hp0] at h
            obtain ⟨pre, suf, heq, hrest⟩ := ih h
            exact ⟨c :: pre, suf, by simp [heq], hrest⟩
          | cons d u =>
            rw [hp0] at h
            cases h
            have hqsplit : (d :: u) ++ q'.dropWhile (· ≠ '\n') = q' := by
              conv_rhs => rw [← List.takeWhile_append_dropWhile (· ≠ '\n') q']
              rw [hp0]
            refine ⟨[], q'.dropWhile (· ≠ '\n'), ?_, ?_, ?_, ?_, ?_⟩
            · rw [List.nil_append, ← hr]
              rw [show ("ENDPOINT: ".toList ++ r.takeWhile isWordChar ++ ' ' :: (d :: u))
                      ++ q'.dropWhile (· ≠ '\n')
                    = "ENDPOINT: ".toList ++
                        (r.takeWhile isWordChar ++
                          ' ' :: ((d :: u) ++ q'.dropWhile (· ≠ '\n'))) by simp]
              rw [hqsplit, hsplit]
            · simpa [List.isEmpty_iff] using hm0
            · simp
            · intro hmem
              have := List.mem_takeWhile_imp (hp0 ▸ hmem)
              simp at this
            · cases hsuf : q'.dropWhile (· ≠ '\n') with
              | nil => exact Or.inl rfl
              | cons x xs =>
                right
                have := head_dropWhile_false hsuf
                simp at this
                simp [hsuf, this]

set_option maxRecDepth 40000 in
/-- C8: whenever the header search succeeds, the parsed method and path
are exactly the two captured groups, the record's endpoint field is
`method ++ " " ++ path`, and that text reconstructs the header line
exactly: the document contains `ENDPOINT: ` followed by precisely
`method ++ " " ++ path` up to the end of that line. -/
theorem endpoint_header_roundtrip (content m p : Chars)
    (h : searchEndpoint content = some (m, p)) :
    (parseFile content).method = m ∧ (parseFile content).path = p ∧
    (parseFile content).endpoint = m ++ ' ' :: p ∧
    ∃ pre suf,
      content = pre ++ ("ENDPOINT: ".toList ++ m ++ ' ' :: p) ++ suf ∧
      m ≠ [] ∧ p ≠ [] ∧ '\n' ∉ p ∧ (suf = [] ∨ suf.head? = some '\n') := by
  refine ⟨by simp [parseFile, h], by simp [parseFile, h], by simp [parseFile, h], ?_⟩
  exact searchEndpoint_sound h

set_option maxRecDepth 40000 in
theorem endpoint_header_roundtrip_witness :
    (parseFile "ENDPOINT: GET /items\ntail".toList).endpoint
      = "GET".toList ++ ' ' :: "/items".toList :=
  (endpoint_header_roundtrip "ENDPOINT: GET /items\ntail".toList
    "GET".toList "/items".toList (by decide)).2.2.1

/-- C10: for every input, method, path and endpoint are either all empty
(no header match) or all populated with `endpoint = method ++ " " ++ path`;
a record can never carry only one of method/path. -/
theorem method_path_endpoint_consistent (content : Chars) :
    ((parseFile content).method = [] ∧ (parseFile content).path = [] ∧
      (parseFile content).endpoint = []) ∨
    ((parseFile content).method ≠ [] ∧ (parseFile content).path ≠ [] ∧
      (parseFile content).endpoint =
        (parseFile content).method ++ ' ' :: (parseFile content).path) := by
  cases h : searchEndpoint content with
  | none => left; simp [parseFile, h]
  | some mp =>
    obtain ⟨m, p⟩ := mp
    obtain ⟨pre, suf, -, hm, hp, -, -⟩ := searchEndpoint_sound h
    right
    refine ⟨?_, ?_, ?_⟩ <;> simp [parseFile, h, hm, hp]

end LogConv

namespace LogConv

/-!
Section: Claim C5 — absent sections degrade to defaults
-/

theorem isSubstr_false {pat s : Chars} (h : isSubstr pat s = false) :
    suffixFrom pat s = none := by
  unfold isSubstr at h
  cases hs : suffixFrom pat s with
  | none => rfl
  | some v => rw [hs] at h; cases h

theorem searchLineCap_none {anchor : Chars} :
    ∀ {s : Chars}, suffixFrom anchor s = none → searchLineCap anchor s = none := by
  intro s
  induction s with
  | nil => intro h; rfl
  | cons c t ih =>
    intro h
    rw [suffixFrom_cons] at h
    by_cases hp : anchor.isPrefixOf (c :: t) = true
    · rw [if_pos hp] at h; cases h
    · rw [if_neg hp] at h
      simp only [searchLineCap]
      rw [if_neg hp]
      exact ih h

theorem searchDotallPlus_none {anchor : Chars} {stops : List Chars} :
    ∀ {s : Chars}, suffixFrom anchor s = none →
      searchDotallPlus anchor stops s = none := by
  intro s
  induction s with
  | nil => intro h; rfl
  | cons c t ih =>
    intro h
    rw [suffixFrom_cons] at h
    by_cases hp : anchor.isPrefixOf (c :: t) = true
    · rw [if_pos hp] at h; cases h
    · rw [if_neg hp] at h
      simp only [searchDotallPlus]
      rw [if_neg hp]
      exact ih h

theorem sectionHead_none {anchor s : Chars} (hp : ¬ anchor.isPrefixOf s = true) :
    sectionHead anchor s = none := by
  unfold sectionHead
  rw [if_neg hp]

theorem searchSection_none {anchor : Chars} :
    ∀ {s : Chars}, suffixFrom anchor s = none → searchSection anchor s = none := by
  intro s
  induction s with
  | nil =>
    intro h
    simp only [suffixFrom] at h
    simp only [searchSection]
    exact sectionHead_none (by intro hp; rw [if_pos hp] at h; cases h)
  | cons c t ih =>
    intro h
    rw [suffixFrom_cons] at h
    by_cases hp : anchor.isPrefixOf (c :: t) = true
    · rw [if_pos hp] at h; cases h
    · rw [if_neg hp] at h
      simp only [searchSection]
      rw [sectionHead_none hp]
      exact ih h

theorem searchEndpoint_none :
    ∀ {s : Chars}, suffixFrom "ENDPOINT: ".toList s = none → searchEndpoint s = none := by
  intro s
  induction s with
  | nil => intro h; rfl
  | cons c t ih =>
    intro h
    rw [suffixFrom_cons] at h
    by_cases hp : "ENDPOINT: ".toList.isPrefixOf (c :: t) = true
    · rw [if_pos hp] at h; cases h
    · rw [if_neg hp] at h
      simp only [searchEndpoint]
      rw [if_neg hp]
      exact ih h

/-- C5: `parse_file` always assembles a complete record — every field is
total by construction — and each absent anchor resolves that anchor's
field to its default (empty string or empty list): a document without
`QUERY PARAMETERS:` yields an empty query-parameter list, and likewise for
every other section; each field is computed only from its own search, so
no sub-parser failure affects the remaining fields. -/
theorem record_absent_sections_default (content : Chars) :
    (isSubstr "ENDPOINT: ".toList content = false →
      (parseFile content).method = [] ∧ (parseFile content).path = [] ∧
        (parseFile content).endpoint = []) ∧
    (isSubstr "Summary: ".toList content = false → (parseFile content).summary = []) ∧
    (isSubstr "Description: ".toList content = false →
      (parseFile content).description = []) ∧
    (isSubstr "Tags: ".toList content = false → (parseFile content).tags = []) ∧
    (isSubstr "PATH PARAMETERS:".toList content = false →
      (parseFile content).path_parameters = []) ∧
    (isSubstr "QUERY PARAMETERS:".toList content = false →
      (parseFile content).query_parameters = []) ∧
    (isSubstr "REQUEST BODY:".toList content = false →
      (parseFile content).request_body = []) ∧
    (isSubstr "RESPONSES:".toList content = false →
      (parseFile content).responses = []) ∧
    (isSubstr "BASIC CURL COMMAND:".toList content = false →
      isSubstr "ADVANCED USAGE EXAMPLES:".toList content = false →
      (parseFile content).curl_examples = []) := by
  refine ⟨?_, ?_, ?_, ?_, ?_, ?_, ?_, ?_, ?_⟩
  · intro h
    have hn := searchEndpoint_none (isSubstr_false h)
    refine ⟨?_, ?_, ?_⟩
    · show ((searchEndpoint content).map (·.1)).getD [] = []
      rw [hn]; rfl
    · show ((searchEndpoint content).map (·.2)).getD [] = []
      rw [hn]; rfl
    · show (match searchEndpoint content with
            | some (m, p) => m ++ ' ' :: p
            | none => []) = []
      rw [hn]
  · intro h
    show ((searchLineCap "Summary: ".toList content).map pyStrip).getD [] = []
    rw [searchLineCap_none (isSubstr_false h)]; rfl
  · intro h
    show ((searchDotallPlus "Description: ".toList descStops content).map pyStrip).getD []
        = []
    rw [searchDotallPlus_none (isSubstr_false h)]; rfl
  · intro h
    show ((searchLineCap "Tags: ".toList content).map pyStrip).getD [] = []
    rw [searchLineCap_none (isSubstr_false h)]; rfl
  · intro h
    show ((sectionSpan "PATH PARAMETERS:".toList pathParamStops content).map
        parseParameters).getD [] = []
    unfold sectionSpan
    rw [searchSection_none (isSubstr_false h)]; rfl
  · intro h
    show ((sectionSpan "QUERY PARAMETERS:".toList queryParamStops content).map
        parseParameters).getD [] = []
    unfold sectionSpan
    rw [searchSection_none (isSubstr_false h)]; rfl
  · intro h
    show ((sectionSpan "REQUEST BODY:".toList requestBodyStops content).map
        parseRequestBody).getD [] = []
    unfold sectionSpan
    rw [searchSection_none (isSubstr_false h)]; rfl
  · intro h
    show ((sectionSpan "RESPONSES:".toList responsesStops content).map
        parseResponses).getD [] = []
    unfold sectionSpan
    rw [searchSection_none (isSubstr_false h)]; rfl
  · intro h1 h2
    show ((match sectionSpan "BASIC CURL COMMAND:".toList curlStops content with
           | some g => [{ title := "Basic Command".toList, command := pyStrip g }]
           | none => []) ++
          (match sectionSpanToEnd "ADVANCED USAGE EXAMPLES:".toList content with
           | some g => parseAdvancedCurl g
           | none => [])) = []
    unfold sectionSpan sectionSpanToEnd
    rw [searchSection_none (isSubstr_false h1), searchSection_none (isSubstr_false h2)]
    rfl

theorem record_absent_sections_default_witness :
    (parseFile "hello".toList).query_parameters = [] :=
  (record_absent_sections_default "hello".toList).2.2.2.2.2.1 (by decide)

end LogConv

namespace LogConv

/-!
Section: Lemmas about `pyStrip` and single-character `pySplit`
-/

theorem dropWhile_cons_of_neg {p : Char → Bool} {c : Char} {t : Chars}
    (hc : p c = false) : (c :: t).dropWhile p = c :: t := by
  simp [List.dropWhile_cons, hc]

theorem dropWhile_append_of_all {p : Char → Bool} :
    ∀ {w : Chars} (s : Chars), (∀ c ∈ w, p c = true) →
      (w ++ s).dropWhile p = s.dropWhile p := by
  intro w
  induction w with
  | nil => intro s _; rfl
  | cons c t ih =>
    intro s hall
    have hc : p c = true := hall c (List.mem_cons_self c t)
    rw [List.cons_append, List.dropWhile_cons, if_pos hc]
    exact ih s (fun x hx => hall x (List.mem_cons_of_mem c hx))

theorem head_false_of_dropWhile_self {p : Char → Bool} {c : Char} {t : Chars}
    (h : (c :: t).dropWhile p = c :: t) : p c = false := by
  by_contra hc
  rw [Bool.not_eq_false] at hc
  rw [List.dropWhile_cons, if_pos hc] at h
  have hle := (List.dropWhile_suffix (l := t) p).length_le
  rw [h] at hle
  simp at hle

theorem lstrip_eq_self_of_pyStrip_self {s : Chars} (h : pyStrip s = s) :
    s.dropWhile pyIsSpace = s := by
  apply (List.dropWhile_suffix (l := s) pyIsSpace).eq_of_length
  have h1 : s.length ≤ (s.dropWhile pyIsSpace).length := by
    conv_lhs => rw [← h]
    unfold pyStrip
    rw [List.length_reverse]
    have := (List.dropWhile_suffix (l := (s.dropWhile pyIsSpace).reverse) pyIsSpace).length_le
    simpa using this
  have h2 := (List.dropWhile_suffix (l := s) pyIsSpace).length_le
  omega

theorem rstrip_eq_self_of_pyStrip_self {s : Chars} (h : pyStrip s = s) :
    s.reverse.dropWhile pyIsSpace = s.reverse := by
  have hl := lstrip_eq_self_of_pyStrip_self h
  have h2 : pyStrip s = (s.reverse.dropWhile pyIsSpace).reverse := by
    unfold pyStrip; rw [hl]
  rw [h] at h2
  have h3 := congrArg List.reverse h2
  rw [List.reverse_reverse] at h3
  exact h3.symm

theorem head_not_ws_of_pyStrip_self {s : Chars} (h : pyStrip s = s) {c : Char}
    (hc : s.head? = some c) : pyIsSpace c = false := by
  have hl := lstrip_eq_self_of_pyStrip_self h
  obtain ⟨t, rfl⟩ : ∃ t, s = c :: t := by
    cases s with
    | nil => cases hc
    | cons x xs => cases hc; exact ⟨xs, rfl⟩
  exact head_false_of_dropWhile_self hl

theorem getLast_not_ws_of_pyStrip_self {s : Chars} (h : pyStrip s = s) {c : Char}
    (hc : s.getLast? = some c) : pyIsSpace c = false := by
  have hr := rstrip_eq_self_of_pyStrip_self h
  have hrev : s.reverse.head? = some c := by
    rw [List.head?_reverse, hc]
  obtain ⟨t, ht⟩ : ∃ t, s.reverse = c :: t := by
    cases hsr : s.reverse with
    | nil => rw [hsr] at hrev; cases hrev
    | cons x xs => rw [hsr] at hrev; cases hrev; exact ⟨xs, rfl⟩
  rw [ht] at hr
  exact head_false_of_dropWhile_self hr

theorem pyStrip_eq_self_of {s : Chars}
    (h1 : ∀ c, s.head? = some c → pyIsSpace c = false)
    (h2 : ∀ c, s.getLast? = some c → pyIsSpace c = false) :
    pyStrip s = s := by
  cases s with
  | nil => rfl
  | cons a t =>
    unfold pyStrip
    rw [dropWhile_cons_of_neg (h1 a rfl)]
    cases hrev : (a :: t).reverse with
    | nil => simp at hrev
    | cons b u =>
      have hb : pyIsSpace b = false := by
        apply h2
        rw [← List.head?_reverse, hrev]; rfl
      rw [dropWhile_cons_of_neg hb, ← hrev, List.reverse_reverse]

theorem pyStrip_ws_append {w s : Chars} (hw : ∀ c ∈ w, pyIsSpace c = true) :
    pyStrip (w ++ s) = pyStrip s := by
  unfold pyStrip
  rw [dropWhile_append_of_all s hw]

end LogConv

namespace LogConv

theorem suffixFrom_drop_length_lt {sep s suf : Chars} (hsep : sep ≠ [])
    (h : suffixFrom sep s = some suf) : (suf.drop sep.length).length < s.length := by
  have h1 : sep.length ≤ suf.length :=
    (List.isPrefixOf_iff_prefix.mp (suffixFrom_isPrefix h)).length_le
  have h2 : suf.length ≤ s.length := (suffixFrom_isSuffix h).length_le
  have h3 : 0 < sep.length := List.length_pos.mpr hsep
  rw [List.length_drop]
  omega

theorem pySplitFuel_congr (sep : Chars) :
    ∀ (f1 : Nat) {f2 : Nat} {s : Chars}, s.length < f1 → s.length < f2 →
      pySplitFuel sep f1 s = pySplitFuel sep f2 s := by
  intro f1
  induction f1 with
  | zero => intro f2 s h1 h2; exact absurd h1 (Nat.not_lt_zero _)
  | succ f ih =>
    intro f2 s h1 h2
    cases f2 with
    | zero => exact absurd h2 (Nat.not_lt_zero _)
    | succ g =>
      simp only [pySplitFuel]
      cases hs : suffixFrom sep s with
      | none => rfl
      | some suf =>
        dsimp only
        by_cases he : sep.isEmpty = true
        · rw [if_pos he, if_pos he]
        · rw [if_neg he, if_neg he]
          have hne : sep ≠ [] := by
            intro hnil; rw [hnil] at he; exact he rfl
          have hlt := suffixFrom_drop_length_lt hne hs
          congr 1
          exact ih (by omega) (by omega)

theorem pySplit_eq (sep s : Chars) (hsep : sep ≠ []) :
    pySplit sep s =
      match suffixFrom sep s with
      | none => [s]
      | some suf =>
        s.take (s.length - suf.length) :: pySplit sep (suf.drop sep.length) := by
  unfold pySplit
  conv_lhs => rw [pySplitFuel]
  cases hs : suffixFrom sep s with
  | none => rfl
  | some suf =>
    dsimp only
    have he : sep.isEmpty = false := by
      cases sep with
      | nil => exact absurd rfl hsep
      | cons a b => rfl
    rw [if_neg (by rw [he]; exact Bool.false_ne_true)]
    have hlt := suffixFrom_drop_length_lt hsep hs
    congr 1
    exact pySplitFuel_congr sep s.length (by omega) (by omega)

theorem replaceAllFuel_congr (pat repl : Chars) :
    ∀ (f1 : Nat) {f2 : Nat} {s : Chars}, s.length < f1 → s.length < f2 →
      replaceAllFuel pat repl f1 s = replaceAllFuel pat repl f2 s := by
  intro f1
  induction f1 with
  | zero => intro f2 s h1 h2; exact absurd h1 (Nat.not_lt_zero _)
  | succ f ih =>
    intro f2 s h1 h2
    cases f2 with
    | zero => exact absurd h2 (Nat.not_lt_zero _)
    | succ g =>
      simp only [replaceAllFuel]
      cases hs : suffixFrom pat s with
      | none => rfl
      | some suf =>
        dsimp only
        by_cases he : pat.isEmpty = true
        · rw [if_pos he, if_pos he]
        · rw [if_neg he, if_neg he]
          have hne : pat ≠ [] := by
            intro hnil; rw [hnil] at he; exact he rfl
          have hlt := suffixFrom_drop_length_lt hne hs
          congr 1
          exact ih (by omega) (by omega)

theorem replaceAll_eq (pat repl s : Chars) (hpat : pat ≠ []) :
    replaceAll pat repl s =
      match suffixFrom pat s with
      | none => s
      | some suf =>
        s.take (s.length - suf.length) ++ repl ++
          replaceAll pat repl (suf.drop pat.length) := by
  unfold replaceAll
  conv_lhs => rw [replaceAllFuel]
  cases hs : suffixFrom pat s with
  | none => rfl
  | some suf =>
    dsimp only
    have he : pat.isEmpty = false := by
      cases pat with
      | nil => exact absurd rfl hpat
      | cons a b => rfl
    rw [if_neg (by rw [he]; exact Bool.false_ne_true)]
    have hlt := suffixFrom_drop_length_lt hpat hs
    refine congrArg (fun z => s.take (s.length - suf.length) ++ repl ++ z) ?_
    exact @replaceAllFuel_congr pat repl s.length ((suf.drop pat.length).length + 1)
      (suf.drop pat.length) (by omega) (by omega)

theorem suffixFrom_of_isPrefix {pat s : Chars} (h : pat.isPrefixOf s = true) :
    suffixFrom pat s = some s := by
  cases s with
  | nil => simp [suffixFrom, h]
  | cons c t => simp [suffixFrom, h]

theorem suffixFrom_not_mem {c : Char} :
    ∀ {piece : Chars}, c ∉ piece → suffixFrom [c] piece = none := by
  intro piece
  induction piece with
  | nil => intro _; rfl
  | cons d t ih =>
    intro h
    simp only [List.mem_cons, not_or] at h
    rw [suffixFrom_cons, if_neg, ih h.2]
    simp [List.isPrefixOf]
    exact h.1

theorem suffixFrom_single_append {c : Char} {piece : Chars} (rest : Chars)
    (h : c ∉ piece) :
    suffixFrom [c] (piece ++ c :: rest) = some (c :: rest) := by
  induction piece with
  | nil =>
    rw [List.nil_append, suffixFrom_cons, if_pos]
    simp [List.isPrefixOf]
  | cons d t ih =>
    simp only [List.mem_cons, not_or] at h
    rw [List.cons_append, suffixFrom_cons, if_neg, ih h.2]
    simp [List.isPrefixOf]
    exact h.1

theorem pySplit_newline_cons {piece rest : Chars} (h : '\n' ∉ piece) :
    pySplit ['\n'] (piece ++ '\n' :: rest) = piece :: pySplit ['\n'] rest := by
  rw [pySplit_eq _ _ (by simp), suffixFrom_single_append rest h]
  dsimp only
  have hlen : (piece ++ '\n' :: rest).length - ('\n' :: rest).length = piece.length := by
    simp
  rw [hlen]
  have htake : (piece ++ '\n' :: rest).take piece.length = piece :=
    List.take_left piece ('\n' :: rest)
  rw [htake]
  rfl

theorem pySplit_newline_last {piece : Chars} (h : '\n' ∉ piece) :
    pySplit ['\n'] piece = [piece] := by
  rw [pySplit_eq _ _ (by simp), suffixFrom_not_mem h]

end LogConv

namespace LogConv

/-!
Section: Claim C6 — three-line parameter descriptions

The claim says the description of a three-line `Description:` field is
the three lines' text joined by newlines, verbatim.  That is false of the
code: `line_stripped.replace('Description:', '')` removes *every*
occurrence of the label, so a label line whose own text contains
`Description:` is mangled (see the counterexample below).  The amended
claim adds the proviso that the label line's text does not itself contain
`Description:`; under that proviso — and the per-line whitespace strip
the code applies to every physical line — the verbatim newline-join
holds, as the main theorem shows.
-/

theorem getLast?_cons_of_ne_nil {c : Char} {l : Chars} (h : l ≠ []) :
    (c :: l).getLast? = l.getLast? :=
  List.getLast?_append_of_ne_nil [c] h

set_option maxRecDepth 40000 in
/-- C6 counterexample: on the bullet block
`p (REQUIRED)\n  Description: x Description: y\n    cont1\n    cont2` —
whose `Description:` field spans three physical lines — the parser
produces the description `x  y\ncont1\ncont2`, because the replace-all
removes the second `Description:` from the label line's own text; the
claimed verbatim join of the three lines' text would be
`x Description: y\ncont1\ncont2`.  The claim as frozen is therefore
false of the code. -/
theorem param_description_counterexample :
    (parseParamBlock
        "p (REQUIRED)\n  Description: x Description: y\n    cont1\n    cont2".toList).description
      = some "x  y\ncont1\ncont2".toList ∧
    "x  y\ncont1\ncont2".toList ≠ "x Description: y\ncont1\ncont2".toList := by
  refine ⟨by decide, by decide⟩

set_option maxRecDepth 40000 in
/-- C6 as amended: a parameter bullet block whose `Description:` field
spans three physical lines — the label line plus two indented
continuation lines — yields a parameter whose description is exactly
those three lines' text (each line's content with the block indentation
removed, as the code strips every physical line) joined by newlines,
*provided the label line's own text does not contain the literal
`Description:`* (hypothesis `h14`; without it the code's replace-all
mangles the line, see `param_description_counterexample`).  The remaining
hypotheses say the three lines' contents are nonempty, contain no
newline, are whitespace-trimmed, and that the continuation lines do not
start a new labelled field. -/
theorem param_description_three_lines
    (nameLine d1 d2 d3 : Chars)
    (hn1 : pyStrip nameLine = nameLine) (hn2 : nameLine ≠ [])
    (hn3 : '\n' ∉ nameLine)
    (h11 : pyStrip d1 = d1) (h12 : d1 ≠ []) (h13 : '\n' ∉ d1)
    (h14 : isSubstr "Description:".toList d1 = false)
    (h21 : pyStrip d2 = d2) (h22 : d2 ≠ []) (h23 : '\n' ∉ d2)
    (h24 : "Description:".toList.isPrefixOf d2 = false)
    (h25 : "Type:".toList.isPrefixOf d2 = false)
    (h26 : "Example:".toList.isPrefixOf d2 = false)
    (h31 : pyStrip d3 = d3) (h32 : d3 ≠ []) (h33 : '\n' ∉ d3)
    (h34 : "Description:".toList.isPrefixOf d3 = false)
    (h35 : "Type:".toList.isPrefixOf d3 = false)
    (h36 : "Example:".toList.isPrefixOf d3 = false) :
    (parseParamBlock
        (nameLine ++ '\n' ::
          (("  Description: ".toList ++ d1) ++ '\n' ::
            (("    ".toList ++ d2) ++ '\n' :: ("    ".toList ++ d3))))).description
      = some (d1 ++ '\n' :: (d2 ++ '\n' :: d3)) := by
  have h22e : d2.isEmpty = false := by
    cases d2 with
    | nil => exact absurd rfl h22
    | cons a b => rfl
  have h32e : d3.isEmpty = false := by
    cases d3 with
    | nil => exact absurd rfl h32
    | cons a b => rfl
  -- strip of the label line
  have hls2 : pyStrip ("  Description: ".toList ++ d1) = "Description: ".toList ++ d1 := by
    rw [show "  Description: ".toList ++ d1
          = "  ".toList ++ ("Description: ".toList ++ d1) from rfl]
    rw [pyStrip_ws_append (by decide)]
    apply pyStrip_eq_self_of
    · intro c hc
      rw [show ("Description: ".toList ++ d1).head? = some 'D' from rfl] at hc
      cases hc; decide
    · intro c hc
      rw [List.getLast?_append_of_ne_nil _ h12] at hc
      exact getLast_not_ws_of_pyStrip_self h11 hc
  have hpre2 : "Description:".toList.isPrefixOf ("Description: ".toList ++ d1) = true :=
    List.isPrefixOf_iff_prefix.mpr ⟨' ' :: d1, rfl⟩
  -- the replace-then-strip of the label line
  have hsub1 : suffixFrom "Description:".toList (' ' :: d1) = none := by
    rw [suffixFrom_cons, if_neg]
    · exact isSubstr_false h14
    · simp [List.isPrefixOf]
  have hrepl : replaceAll "Description:".toList [] ("Description: ".toList ++ d1)
      = ' ' :: d1 := by
    rw [show ("Description: ".toList ++ d1)
          = "Description:".toList ++ (' ' :: d1) from rfl]
    rw [replaceAll_eq _ _ _ (by decide),
      suffixFrom_of_isPrefix (List.isPrefixOf_iff_prefix.mpr ⟨' ' :: d1, rfl⟩)]
    dsimp only
    rw [List.drop_left, replaceAll_eq _ _ _ (by decide), hsub1]
    simp
  have hreplStrip :
      pyStrip (replaceAll "Description:".toList [] ("Description: ".toList ++ d1))
        = d1 := by
    rw [hrepl, show (' ' :: d1) = [' '] ++ d1 from rfl,
      pyStrip_ws_append (by decide)]
    exact h11
  -- strips of the continuation lines
  have hls3 : pyStrip ("    ".toList ++ d2) = d2 := by
    rw [pyStrip_ws_append (by decide)]; exact h21
  have hls4 : pyStrip ("    ".toList ++ d3) = d3 := by
    rw [pyStrip_ws_append (by decide)]; exact h31
  -- the three detail-loop steps
  have hstep1 : ∀ B : ParamData,
      paramLineStep (B, none) ("  Description: ".toList ++ d1)
        = (B, some (PLabel.pdesc, [d1])) := by
    intro B
    unfold paramLineStep
    dsimp only
    rw [hls2, if_pos hpre2, hreplStrip]
    rfl
  have hstep2 : ∀ B : ParamData,
      paramLineStep (B, some (PLabel.pdesc, [d1])) ("    ".toList ++ d2)
        = (B, some (PLabel.pdesc, [d1, d2])) := by
    intro B
    unfold paramLineStep
    dsimp only
    rw [hls3, if_neg (by rw [h24]; exact Bool.false_ne_true),
      if_neg (by rw [h25]; exact Bool.false_ne_true),
      if_neg (by rw [h26]; exact Bool.false_ne_true),
      if_pos (by simp [h22e])]
    rfl
  have hstep3 : ∀ B : ParamData,
      paramLineStep (B, some (PLabel.pdesc, [d1, d2])) ("    ".toList ++ d3)
        = (B, some (PLabel.pdesc, [d1, d2, d3])) := by
    intro B
    unfold paramLineStep
    dsimp only
    rw [hls4, if_neg (by rw [h34]; exact Bool.false_ne_true),
      if_neg (by rw [h35]; exact Bool.false_ne_true),
      if_neg (by rw [h36]; exact Bool.false_ne_true),
      if_pos (by simp [h32e])]
    rfl
  -- the line split of the stripped block
  have hl2nl : '\n' ∉ "  Description: ".toList ++ d1 := by
    intro hm
    rcases List.mem_append.mp hm with hmm | hmm
    · revert hmm; decide
    · exact h13 hmm
  have hl3nl : '\n' ∉ "    ".toList ++ d2 := by
    intro hm
    rcases List.mem_append.mp hm with hmm | hmm
    · revert hmm; decide
    · exact h23 hmm
  have hl4nl : '\n' ∉ "    ".toList ++ d3 := by
    intro hm
    rcases List.mem_append.mp hm with hmm | hmm
    · revert hmm; decide
    · exact h33 hmm
  have hsplit4 : pySplit ['\n']
      (nameLine ++ '\n' ::
        (("  Description: ".toList ++ d1) ++ '\n' ::
          (("    ".toList ++ d2) ++ '\n' :: ("    ".toList ++ d3))))
      = [nameLine, "  Description: ".toList ++ d1,
         "    ".toList ++ d2, "    ".toList ++ d3] := by
    rw [pySplit_newline_cons hn3, pySplit_newline_cons hl2nl,
      pySplit_newline_cons hl3nl, pySplit_newline_last hl4nl]
  -- strip of the whole block
  have hblockstrip : pyStrip
      (nameLine ++ '\n' ::
        (("  Description: ".toList ++ d1) ++ '\n' ::
          (("    ".toList ++ d2) ++ '\n' :: ("    ".toList ++ d3))))
      = nameLine ++ '\n' ::
          (("  Description: ".toList ++ d1) ++ '\n' ::
            (("    ".toList ++ d2) ++ '\n' :: ("    ".toList ++ d3))) := by
    apply pyStrip_eq_self_of
    · intro c hc
      obtain ⟨a, t0, rfl⟩ := List.exists_cons_of_ne_nil hn2
      rw [show ((a :: t0) ++ '\n' ::
            (("  Description: ".toList ++ d1) ++ '\n' ::
              (("    ".toList ++ d2) ++ '\n' :: ("    ".toList ++ d3)))).head?
          = some a from rfl] at hc
      cases hc
      exact head_not_ws_of_pyStrip_self hn1 rfl
    · intro c hc
      rw [List.getLast?_append_cons, getLast?_cons_of_ne_nil (by simp),
        List.getLast?_append_cons, getLast?_cons_of_ne_nil (by simp),
        List.getLast?_append_cons, getLast?_cons_of_ne_nil (by simp),
        List.getLast?_append_of_ne_nil _ h32] at hc
      exact getLast_not_ws_of_pyStrip_self h31 hc
  -- the joined description strips to itself
  have hjstrip : pyStrip (d1 ++ '\n' :: (d2 ++ '\n' :: d3))
      = d1 ++ '\n' :: (d2 ++ '\n' :: d3) := by
    apply pyStrip_eq_self_of
    · intro c hc
      obtain ⟨a, t1, rfl⟩ := List.exists_cons_of_ne_nil h12
      rw [show ((a :: t1) ++ '\n' :: (d2 ++ '\n' :: d3)).head? = some a from rfl] at hc
      cases hc
      exact head_not_ws_of_pyStrip_self h11 rfl
    · intro c hc
      rw [List.getLast?_append_cons, getLast?_cons_of_ne_nil (by simp),
        List.getLast?_append_cons, getLast?_cons_of_ne_nil h32] at hc
      exact getLast_not_ws_of_pyStrip_self h31 hc
  -- assemble
  unfold parseParamBlock
  rw [hblockstrip, hsplit4]
  dsimp only [List.headD, List.tail, List.foldl]
  rw [hstep1, hstep2, hstep3]
  unfold flushParam
  dsimp only
  rw [show joinLines [d1, d2, d3] = d1 ++ '\n' :: (d2 ++ '\n' :: d3) from rfl, hjstrip]

theorem param_description_three_lines_witness :
    (parseParamBlock
        ("count (optional)".toList ++ '\n' ::
          (("  Description: ".toList ++ "How many".toList) ++ '\n' ::
            (("    ".toList ++ "per page".toList) ++ '\n' ::
              ("    ".toList ++ "at most 100".toList))))).description
      = some ("How many".toList ++ '\n' ::
          ("per page".toList ++ '\n' :: "at most 100".toList)) :=
  param_description_three_lines "count (optional)".toList "How many".toList
    "per page".toList "at most 100".toList
    (by decide) (by decide) (by decide)
    (by decide) (by decide) (by decide) (by decide)
    (by decide) (by decide) (by decide) (by decide) (by decide) (by decide)
    (by decide) (by decide) (by decide) (by decide) (by decide) (by decide)

end LogConv
